import Mathlib

/-!
Shallow embedding of the go-chat-app room-based chat router.

The embedded code:
* `internal/service` (the Hub actor, `Hub.Run`, `Client`, `NewClient`,
  `Client.readPump`): the room-keyed variant whose `Hub.clients` field has
  type `map[string]map[string]*Client`.
* `internal/handler/chat.go` (`ChatHandler.ServeWs`).

Go maps are modelled as association lists with the usual
insert-or-replace / lookup / delete operations; a `*Client` pointer is
modelled as a `Client` value carrying a numeric identity `cid` standing for
the pointer, so that two distinct session objects for the same (room, user)
key can be told apart.  The buffered channel `Client.send` (capacity 256) is
modelled as a bounded queue with a closed flag; each client's mailbox is
looked up by its `cid` in a total map `mail : Nat → Mailbox`.  The Hub's
single-threaded `select` loop is modelled as a step function
`hubStep : HubState → Cmd → HubState × List Event`, where the event list
records the observable effects (enqueues, channel closes, registry deletes,
"recipient not found" log lines) of processing one command.
-/

/-- `Message` from `internal/service`: `{sender_id, recipient_id, room_id,
content}`.  A `recipientID` equal to `""` is Go's zero value, meaning
broadcast. -/
structure Message where
  senderID : String
  recipientID : String
  roomID : String
  content : String
deriving DecidableEq, Repr

/-- The registry-relevant part of a `*Client`: its pointer identity `cid`
plus the `userID` and `roomID` fields.  The `send` channel is held
separately, keyed by `cid` (see `HubState.mail`). -/
structure Client where
  cid : Nat
  userID : String
  roomID : String
deriving DecidableEq, Repr

/-- Capacity of the buffered `send` channel created in `NewClient`
(`make(chan *Message, 256)`). -/
def sendCap : Nat := 256

/-- State of one client's `send` channel: the queued messages and whether
the channel has been closed. -/
structure Mailbox where
  queue : List Message
  closed : Bool
deriving DecidableEq, Repr

/-- A fresh, open, empty mailbox (what `NewClient` creates). -/
def Mailbox.fresh : Mailbox := ⟨[], false⟩

/-- A non-blocking send on the channel can succeed exactly when the channel
is open and its buffer is not full.  (The Hub only ever sends to channels of
currently registered clients, which are never closed, so the `closed` test
never fires on a reachable enqueue.) -/
def mbCanTake (mb : Mailbox) : Bool :=
  !mb.closed && decide (mb.queue.length < sendCap)

/-- Enqueue a message (the `client.send <- message` case of the select). -/
def pushMB (m : Message) (mb : Mailbox) : Mailbox :=
  { mb with queue := mb.queue ++ [m] }

/-- `close(client.send)`. -/
def closeMB (mb : Mailbox) : Mailbox :=
  { mb with closed := true }

/-! ### Association lists standing for Go maps -/

/-- Go map lookup `l[k]` (with `ok`): first entry with key `k`. -/
def alLookup {α : Type} (k : String) : List (String × α) → Option α
  | [] => none
  | p :: rest => if p.1 = k then some p.2 else alLookup k rest

/-- Go map assignment `l[k] = v`: replace the entry for `k`, or append. -/
def alUpdate {α : Type} (k : String) (v : α) : List (String × α) → List (String × α)
  | [] => [(k, v)]
  | p :: rest => if p.1 = k then (k, v) :: rest else p :: alUpdate k v rest

/-- Go `delete(l, k)`: remove the entry for `k` (a no-op when absent). -/
def alErase {α : Type} (k : String) : List (String × α) → List (String × α)
  | [] => []
  | p :: rest => if p.1 = k then rest else p :: alErase k rest

/-! ### Hub state and commands -/

/-- The Hub's mutable state: the room-keyed registry
`clients map[string]map[string]*Client`, together with the mailbox of every
client pointer (keyed by `cid`; `cid`s that name no client map to a junk
mailbox that is never consulted). -/
structure HubState where
  clients : List (String × List (String × Client))
  mail : Nat → Mailbox

/-- The three intake channels of `Hub.Run`'s select loop. -/
inductive Cmd
  | register (c : Client)
  | unregister (c : Client)
  | broadcast (m : Message)
deriving DecidableEq, Repr

/-- Observable effects of processing one command. -/
inductive Event
  | enqueue (cid : Nat) (m : Message)
  | closeMbox (cid : Nat)
  | removeEntry (room user : String)
  | notFound (room user : String)
deriving DecidableEq, Repr

/-- `h.clients[room]` defaulted to the empty map (only used where the Go
code has just created or checked the inner map). -/
def innerOf (s : HubState) (room : String) : List (String × Client) :=
  (alLookup room s.clients).getD []

/-- Flattened registry lookup `h.clients[room][user]` (Go's indexing of a
possibly-nil inner map: absent room behaves as an empty map). -/
def lookupEntry (s : HubState) (room user : String) : Option Client :=
  alLookup room s.clients >>= fun inner => alLookup user inner

/-- Point update of the mailbox map. -/
def setMail (cid : Nat) (mb : Mailbox) (f : Nat → Mailbox) : Nat → Mailbox :=
  fun n => if n = cid then mb else f n

/-- One delivery attempt of the broadcast case:
`select { case client.send <- message: ... default: close(client.send);
delete(h.clients[message.RoomID], client.userID) }`. -/
def deliver (s : HubState) (m : Message) (cl : Client) : HubState × List Event :=
  if mbCanTake (s.mail cl.cid) then
    ({ s with mail := setMail cl.cid (pushMB m (s.mail cl.cid)) s.mail },
     [Event.enqueue cl.cid m])
  else
    ({ clients := alUpdate m.roomID (alErase cl.userID (innerOf s m.roomID)) s.clients,
       mail := setMail cl.cid (closeMB (s.mail cl.cid)) s.mail },
     [Event.closeMbox cl.cid, Event.removeEntry m.roomID cl.userID])

/-- The `for _, client := range clientsInRoom` fan-out loop, threaded through
the state (a delete performed mid-loop only ever removes the entry being
visited, so iterating the snapshot of the inner map matches Go's range). -/
def fanout (m : Message) : List (String × Client) → HubState → HubState × List Event
  | [], s => (s, [])
  | p :: rest, s =>
      let r1 := deliver s m p.2
      let r2 := fanout m rest r1.1
      (r2.1, r1.2 ++ r2.2)

/-- One iteration of `Hub.Run`'s select loop, processing a single command. -/
def hubStep (s : HubState) : Cmd → HubState × List Event
  | Cmd.register c =>
      ({ s with clients :=
            alUpdate c.roomID (alUpdate c.userID c (innerOf s c.roomID)) s.clients },
       [])
  | Cmd.unregister c =>
      match alLookup c.roomID s.clients with
      | none => (s, [])
      | some inner =>
          match alLookup c.userID inner with
          | none => (s, [])
          | some _ =>
              ({ clients := alUpdate c.roomID (alErase c.userID inner) s.clients,
                 mail := setMail c.cid (closeMB (s.mail c.cid)) s.mail },
               [Event.removeEntry c.roomID c.userID, Event.closeMbox c.cid])
  | Cmd.broadcast m =>
      if m.recipientID ≠ "" then
        match lookupEntry s m.roomID m.recipientID with
        | some cl => deliver s m cl
        | none => (s, [Event.notFound m.roomID m.recipientID])
      else
        match alLookup m.roomID s.clients with
        | some inner => fanout m inner s
        | none => (s, [])

/-- `NewHub()`: empty registry; no client exists yet, so every mailbox slot
holds a fresh mailbox. -/
def newHub : HubState := ⟨[], fun _ => Mailbox.fresh⟩

/-- Run the command loop over a list of commands, from a given state. -/
def hubRunFrom (s : HubState) (cmds : List Cmd) : HubState :=
  cmds.foldl (fun s c => (hubStep s c).1) s

/-- Run the command loop from the freshly constructed Hub. -/
def hubRun (cmds : List Cmd) : HubState := hubRunFrom newHub cmds

/-- The room keys currently present in the registry. -/
def roomKeys (s : HubState) : List String := s.clients.map Prod.fst

/-! ### `Client.readPump` frame handling -/

/-- Processing of one successfully read frame in `readPump`: the
`json.Unmarshal` result is abstracted as an `Option Message` (the external
decoder either fails — the frame is dropped and the loop continues — or
yields the wire message).  On success the pump overwrites `SenderID` and
`RoomID` with the session's own identity before handing the message to
`hub.broadcast`. -/
def handleFrame (c : Client) (decoded : Option Message) : Option Message :=
  match decoded with
  | none => none
  | some m => some { m with senderID := c.userID, roomID := c.roomID }

/-! ### `ChatHandler.ServeWs` -/

/-- The inputs `ServeWs` consults, with the external collaborators (context
auth value, `uuid.Parse`, the `IsRoomMember` DB query, the websocket
upgrade) abstracted as oracle fields.  `isMember = none` models an error
return from the membership query. -/
structure WsRequest where
  ctxUserID : Option String
  roomParam : String
  userUUIDOk : Bool
  roomUUIDOk : Bool
  isMember : Option Bool
  upgradeOk : Bool

/-- Outcome of `ServeWs`: an `http.Error` with a status code, a failed
upgrade (logged, no HTTP error written), or a connected session. -/
inductive WsOutcome
  | httpError (code : Nat)
  | upgradeFailed
  | connected (userID roomID : String)
deriving DecidableEq, Repr

/-- `ChatHandler.ServeWs`, returning its outcome together with the list of
commands it causes to be sent to the Hub (`NewClient` sends a single
register command; `cid` is the fresh identity of the client it allocates). -/
def serveWs (cid : Nat) (req : WsRequest) : WsOutcome × List Cmd :=
  match req.ctxUserID with
  | none => (WsOutcome.httpError 401, [])
  | some uid =>
      if !req.userUUIDOk then (WsOutcome.httpError 500, [])
      else if !req.roomUUIDOk then (WsOutcome.httpError 400, [])
      else
        match req.isMember with
        | some true =>
            if !req.upgradeOk then (WsOutcome.upgradeFailed, [])
            else (WsOutcome.connected uid req.roomParam,
                  [Cmd.register ⟨cid, uid, req.roomParam⟩])
        | _ => (WsOutcome.httpError 403, [])

/-! ### Derived notions used in the statements -/

/-- The `cid`s (pointer identities) of the clients in an inner room map. -/
def cidsOf (l : List (String × Client)) : List Nat :=
  l.map fun p => p.2.cid

/-- An outer registry list is well-keyed when every inner room map it can
yield has pairwise-distinct user keys. -/
def clientsUnique (l : List (String × List (String × Client))) : Prop :=
  ∀ r inner, alLookup r l = some inner → (inner.map Prod.fst).Nodup

/-- The per-room unique-user-key invariant of the Hub registry. -/
def uniqueKeys (s : HubState) : Prop := clientsUnique s.clients

/-- Decidable check of the unique-user-key invariant (used to state
hypotheses a witness can evaluate). -/
def uniqueKeysB (s : HubState) : Bool :=
  s.clients.all fun p => decide ((p.2.map Prod.fst).Nodup)

/-! ### Association-list lemmas -/

theorem alLookup_alUpdate {α : Type} (u k : String) (v : α) (l : List (String × α)) :
    alLookup u (alUpdate k v l) = if u = k then some v else alLookup u l := by
  induction l with
  | nil =>
      simp only [alUpdate, alLookup]
      by_cases h : k = u <;> by_cases h' : u = k <;> simp_all
  | cons p rest ih =>
      simp only [alUpdate]
      by_cases hpk : p.1 = k
      · simp only [hpk, if_pos rfl, alLookup]
        by_cases h : u = k
        · simp [h]
        · have : ¬ (k = u) := fun hh => h hh.symm
          simp [h, this]
      · simp only [if_neg hpk, alLookup, ih]
        by_cases h : p.1 = u
        · have : ¬ (u = k) := fun hh => hpk (by rw [h, hh])
          simp [h, this]
        · simp [h]

theorem alLookup_alErase_ne {α : Type} (u k : String) (h : u ≠ k)
    (l : List (String × α)) : alLookup u (alErase k l) = alLookup u l := by
  induction l with
  | nil => simp [alErase]
  | cons p rest ih =>
      simp only [alErase]
      by_cases hpk : p.1 = k
      · have hpu : ¬ (p.1 = u) := fun hh => h (by rw [← hh, hpk])
        have hku : ¬ (k = u) := fun hh => h hh.symm
        simp [hpk, alLookup, hpu, hku]
      · simp only [if_neg hpk, alLookup, ih]

theorem alLookup_eq_none_iff {α : Type} (u : String) (l : List (String × α)) :
    alLookup u l = none ↔ u ∉ l.map Prod.fst := by
  induction l with
  | nil => simp [alLookup]
  | cons p rest ih =>
      simp only [alLookup, List.map_cons, List.mem_cons]
      by_cases h : p.1 = u
      · simp [h]
      · have : ¬ (u = p.1) := fun hh => h hh.symm
        simp [h, this, ih]

theorem alErase_map_fst_sublist {α : Type} (k : String) (l : List (String × α)) :
    ((alErase k l).map Prod.fst).Sublist (l.map Prod.fst) := by
  induction l with
  | nil => simp [alErase]
  | cons p rest ih =>
      simp only [alErase]
      by_cases h : p.1 = k
      · simp only [if_pos h, List.map_cons]
        exact (List.sublist_cons_self _ _)
      · simp only [if_neg h, List.map_cons]
        exact ih.cons₂ _

theorem alLookup_alErase_self {α : Type} (k : String) (l : List (String × α))
    (h : (l.map Prod.fst).Nodup) : alLookup k (alErase k l) = none := by
  induction l with
  | nil => simp [alErase, alLookup]
  | cons p rest ih =>
      simp only [List.map_cons, List.nodup_cons] at h
      simp only [alErase]
      by_cases hpk : p.1 = k
      · rw [if_pos hpk, alLookup_eq_none_iff]
        rw [hpk] at h
        exact h.1
      · rw [if_neg hpk, alLookup]
        simp only [hpk, if_false]
        exact ih h.2

theorem alUpdate_mem {α : Type} (k : String) (v : α) (l : List (String × α))
    (q : String × α) (hq : q ∈ alUpdate k v l) : q ∈ l ∨ q = (k, v) := by
  induction l with
  | nil =>
      simp only [alUpdate, List.mem_singleton] at hq
      exact Or.inr hq
  | cons p rest ih =>
      simp only [alUpdate] at hq
      by_cases hpk : p.1 = k
      · rw [if_pos hpk] at hq
        rcases List.mem_cons.mp hq with h1 | h1
        · exact Or.inr h1
        · exact Or.inl (List.mem_cons_of_mem _ h1)
      · rw [if_neg hpk] at hq
        rcases List.mem_cons.mp hq with h1 | h1
        · exact Or.inl (h1 ▸ List.mem_cons_self _ _)
        · rcases ih h1 with h2 | h2
          · exact Or.inl (List.mem_cons_of_mem _ h2)
          · exact Or.inr h2

theorem alUpdate_nodup {α : Type} (k : String) (v : α) (l : List (String × α))
    (h : (l.map Prod.fst).Nodup) : ((alUpdate k v l).map Prod.fst).Nodup := by
  induction l with
  | nil => simp [alUpdate]
  | cons p rest ih =>
      simp only [List.map_cons, List.nodup_cons] at h
      simp only [alUpdate]
      by_cases hpk : p.1 = k
      · simp only [if_pos hpk, List.map_cons, List.nodup_cons]
        refine ⟨?_, h.2⟩
        rw [← hpk]
        exact h.1
      · simp only [if_neg hpk, List.map_cons, List.nodup_cons]
        refine ⟨?_, ih h.2⟩
        intro hmem
        rcases (List.mem_map.mp hmem) with ⟨q, hq, hfst⟩
        rcases alUpdate_mem k v rest q hq with hq' | hq'
        · exact h.1 (List.mem_map.mpr ⟨q, hq', hfst⟩)
        · apply hpk
          rw [← hfst, hq']

theorem alErase_nodup {α : Type} (k : String) (l : List (String × α))
    (h : (l.map Prod.fst).Nodup) : ((alErase k l).map Prod.fst).Nodup :=
  (alErase_map_fst_sublist k l).nodup h

theorem alLookup_mem {α : Type} {k : String} {v : α} :
    ∀ {l : List (String × α)}, alLookup k l = some v → (k, v) ∈ l := by
  intro l
  induction l with
  | nil => intro h; simp [alLookup] at h
  | cons p rest ih =>
      intro h
      simp only [alLookup] at h
      by_cases hpk : p.1 = k
      · rw [if_pos hpk] at h
        have hv : p.2 = v := by injection h
        have : p = (k, v) := Prod.ext hpk hv
        exact this ▸ List.mem_cons_self _ _
      · rw [if_neg hpk] at h
        exact List.mem_cons_of_mem _ (ih h)

theorem alLookup_alErase_none {α : Type} (u k : String) (l : List (String × α))
    (h : alLookup u l = none) : alLookup u (alErase k l) = none := by
  rw [alLookup_eq_none_iff] at h ⊢
  intro hmem
  exact h ((alErase_map_fst_sublist k l).mem hmem)

theorem alUpdate_keys_superset {α : Type} (k r : String) (v : α)
    (l : List (String × α)) (h : r ∈ l.map Prod.fst) :
    r ∈ (alUpdate k v l).map Prod.fst := by
  induction l with
  | nil => simp at h
  | cons p rest ih =>
      simp only [alUpdate]
      by_cases hpk : p.1 = k
      · simp only [if_pos hpk, List.map_cons, List.mem_cons]
        simp only [List.map_cons, List.mem_cons] at h
        rcases h with h | h
        · exact Or.inl (by rw [h, hpk])
        · exact Or.inr h
      · simp only [if_neg hpk, List.map_cons, List.mem_cons]
        simp only [List.map_cons, List.mem_cons] at h
        rcases h with h | h
        · exact Or.inl h
        · exact Or.inr (ih h)

theorem lookupEntry_eq_innerOf (s : HubState) (r u : String) :
    lookupEntry s r u = alLookup u (innerOf s r) := by
  unfold lookupEntry innerOf
  cases alLookup r s.clients <;> simp [alLookup]

theorem innerOf_nodup (s : HubState) (r : String) (h : uniqueKeys s) :
    ((innerOf s r).map Prod.fst).Nodup := by
  unfold innerOf
  cases hr : alLookup r s.clients with
  | none => simp
  | some inner => exact h r inner hr

theorem uniqueKeysB_sound (s : HubState) (h : uniqueKeysB s = true) :
    uniqueKeys s := by
  intro r inner hl
  have hmem : (r, inner) ∈ s.clients := alLookup_mem hl
  have := List.all_eq_true.mp h _ hmem
  exact of_decide_eq_true this

theorem clientsUnique_update (l : List (String × List (String × Client)))
    (k : String) (newInner : List (String × Client))
    (h : clientsUnique l) (hn : (newInner.map Prod.fst).Nodup) :
    clientsUnique (alUpdate k newInner l) := by
  intro r inner hl
  rw [alLookup_alUpdate] at hl
  by_cases hrk : r = k
  · rw [if_pos hrk] at hl
    injection hl with hl
    exact hl ▸ hn
  · rw [if_neg hrk] at hl
    exact h r inner hl

/-! ### Unfolding and frame lemmas for the fan-out loop -/

theorem fanout_cons (m : Message) (p : String × Client)
    (rest : List (String × Client)) (s : HubState) :
    fanout m (p :: rest) s =
      ((fanout m rest (deliver s m p.2).1).1,
       (deliver s m p.2).2 ++ (fanout m rest (deliver s m p.2).1).2) := rfl

theorem deliver_mail_ne (s : HubState) (m : Message) (cl : Client) (n : Nat)
    (h : n ≠ cl.cid) : (deliver s m cl).1.mail n = s.mail n := by
  unfold deliver
  split <;> simp [setMail, h]

theorem deliver_no_new (s : HubState) (m : Message) (cl : Client) (r u : String)
    (h : lookupEntry s r u = none) : lookupEntry (deliver s m cl).1 r u = none := by
  rw [lookupEntry_eq_innerOf] at h ⊢
  unfold deliver
  split
  · exact h
  · unfold innerOf
    show alLookup u ((alLookup r
        (alUpdate m.roomID (alErase cl.userID (innerOf s m.roomID)) s.clients)).getD [])
      = none
    rw [alLookup_alUpdate]
    by_cases hr : r = m.roomID
    · rw [if_pos hr, Option.getD_some]
      apply alLookup_alErase_none
      rw [hr] at h
      unfold innerOf at h
      exact h
    · rw [if_neg hr]
      unfold innerOf at h
      exact h

theorem fanout_cons_fst (m : Message) (p : String × Client)
    (rest : List (String × Client)) (s : HubState) :
    (fanout m (p :: rest) s).1 = (fanout m rest (deliver s m p.2).1).1 := rfl

theorem fanout_cons_snd (m : Message) (p : String × Client)
    (rest : List (String × Client)) (s : HubState) :
    (fanout m (p :: rest) s).2 =
      (deliver s m p.2).2 ++ (fanout m rest (deliver s m p.2).1).2 := rfl

theorem deliver_fst_pos (s : HubState) (m : Message) (cl : Client)
    (h : mbCanTake (s.mail cl.cid) = true) :
    (deliver s m cl).1 =
      { s with mail := setMail cl.cid (pushMB m (s.mail cl.cid)) s.mail } := by
  unfold deliver
  rw [if_pos h]

theorem deliver_snd_pos (s : HubState) (m : Message) (cl : Client)
    (h : mbCanTake (s.mail cl.cid) = true) :
    (deliver s m cl).2 = [Event.enqueue cl.cid m] := by
  unfold deliver
  rw [if_pos h]

theorem deliver_fst_neg (s : HubState) (m : Message) (cl : Client)
    (h : mbCanTake (s.mail cl.cid) = false) :
    (deliver s m cl).1 =
      { clients := alUpdate m.roomID (alErase cl.userID (innerOf s m.roomID)) s.clients,
        mail := setMail cl.cid (closeMB (s.mail cl.cid)) s.mail } := by
  unfold deliver
  rw [if_neg (by simp [h])]

theorem deliver_snd_neg (s : HubState) (m : Message) (cl : Client)
    (h : mbCanTake (s.mail cl.cid) = false) :
    (deliver s m cl).2 = [Event.closeMbox cl.cid, Event.removeEntry m.roomID cl.userID] := by
  unfold deliver
  rw [if_neg (by simp [h])]

theorem deliver_uniqueKeys (s : HubState) (m : Message) (cl : Client)
    (h : uniqueKeys s) : uniqueKeys (deliver s m cl).1 := by
  unfold deliver
  split
  · exact h
  · exact clientsUnique_update s.clients m.roomID _ h
      (alErase_nodup _ _ (innerOf_nodup s m.roomID h))

theorem deliver_roomKeys (s : HubState) (m : Message) (cl : Client) (r : String)
    (h : r ∈ roomKeys s) : r ∈ roomKeys (deliver s m cl).1 := by
  unfold deliver
  split
  · exact h
  · exact alUpdate_keys_superset _ _ _ _ h

theorem fanout_mail_untouched (m : Message) :
    ∀ (l : List (String × Client)) (s : HubState) (n : Nat), n ∉ cidsOf l →
      (fanout m l s).1.mail n = s.mail n := by
  intro l
  induction l with
  | nil => intro s n _; rfl
  | cons p rest ih =>
      intro s n hn
      simp only [cidsOf, List.map_cons, List.mem_cons, not_or] at hn
      rw [fanout_cons_fst]
      rw [ih (deliver s m p.2).1 n hn.2]
      exact deliver_mail_ne s m p.2 n hn.1

theorem fanout_no_new (m : Message) (r u : String) :
    ∀ (l : List (String × Client)) (s : HubState), lookupEntry s r u = none →
      lookupEntry (fanout m l s).1 r u = none := by
  intro l
  induction l with
  | nil => intro s h; exact h
  | cons p rest ih =>
      intro s h
      rw [fanout_cons_fst]
      exact ih _ (deliver_no_new s m p.2 r u h)

theorem fanout_uniqueKeys (m : Message) :
    ∀ (l : List (String × Client)) (s : HubState), uniqueKeys s →
      uniqueKeys (fanout m l s).1 := by
  intro l
  induction l with
  | nil => intro s h; exact h
  | cons p rest ih =>
      intro s h
      rw [fanout_cons_fst]
      exact ih _ (deliver_uniqueKeys s m p.2 h)

theorem fanout_roomKeys (m : Message) (r : String) :
    ∀ (l : List (String × Client)) (s : HubState), r ∈ roomKeys s →
      r ∈ roomKeys (fanout m l s).1 := by
  intro l
  induction l with
  | nil => intro s h; exact h
  | cons p rest ih =>
      intro s h
      rw [fanout_cons_fst]
      exact ih _ (deliver_roomKeys s m p.2 r h)

theorem fanout_all_ok (m : Message) :
    ∀ (l : List (String × Client)) (s : HubState),
      (∀ p ∈ l, mbCanTake (s.mail p.2.cid) = true) → (cidsOf l).Nodup →
      (fanout m l s).2 = l.map (fun p => Event.enqueue p.2.cid m)
      ∧ (fanout m l s).1.clients = s.clients := by
  intro l
  induction l with
  | nil => intro s _ _; exact ⟨rfl, rfl⟩
  | cons p rest ih =>
      intro s hcan hnd
      have hp : mbCanTake (s.mail p.2.cid) = true := hcan p (List.mem_cons_self _ _)
      simp only [cidsOf, List.map_cons, List.nodup_cons] at hnd
      have hcan' : ∀ q ∈ rest, mbCanTake ((deliver s m p.2).1.mail q.2.cid) = true := by
        intro q hq
        rw [deliver_mail_ne s m p.2 q.2.cid
              (fun he => hnd.1 (he ▸ List.mem_map_of_mem _ hq))]
        exact hcan q (List.mem_cons_of_mem _ hq)
      obtain ⟨h1, h2⟩ := ih (deliver s m p.2).1 hcan' hnd.2
      constructor
      · rw [fanout_cons_snd, deliver_snd_pos s m p.2 hp, h1]
        simp
      · rw [fanout_cons_fst, h2, deliver_fst_pos s m p.2 hp]

theorem fanout_attempt (m : Message) :
    ∀ (l : List (String × Client)) (s : HubState) (p : String × Client), p ∈ l →
      Event.enqueue p.2.cid m ∈ (fanout m l s).2
      ∨ (Event.closeMbox p.2.cid ∈ (fanout m l s).2
         ∧ Event.removeEntry m.roomID p.2.userID ∈ (fanout m l s).2) := by
  intro l
  induction l with
  | nil => intro s p h; simp at h
  | cons q rest ih =>
      intro s p hp
      rw [fanout_cons_snd]
      rcases List.mem_cons.mp hp with he | hm
      · subst he
        cases hc : mbCanTake (s.mail p.2.cid) with
        | true =>
            left
            apply List.mem_append_left
            rw [deliver_snd_pos s m p.2 hc]
            exact List.mem_singleton_self _
        | false =>
            right
            constructor <;> apply List.mem_append_left <;>
              rw [deliver_snd_neg s m p.2 hc] <;> simp
      · rcases ih (deliver s m q.2).1 p hm with h | h
        · exact Or.inl (List.mem_append_right _ h)
        · exact Or.inr ⟨List.mem_append_right _ h.1, List.mem_append_right _ h.2⟩

theorem fanout_full_evicted (m : Message) :
    ∀ (l : List (String × Client)) (s : HubState) (p : String × Client),
      p ∈ l → (cidsOf l).Nodup → mbCanTake (s.mail p.2.cid) = false →
      ((fanout m l s).1.mail p.2.cid).closed = true
      ∧ Event.closeMbox p.2.cid ∈ (fanout m l s).2
      ∧ Event.removeEntry m.roomID p.2.userID ∈ (fanout m l s).2 := by
  intro l
  induction l with
  | nil => intro s p h; simp at h
  | cons q rest ih =>
      intro s p hp hnd hfull
      simp only [cidsOf, List.map_cons, List.nodup_cons] at hnd
      rcases List.mem_cons.mp hp with he | hm
      · subst he
        refine ⟨?_, ?_, ?_⟩
        · rw [fanout_cons_fst,
              fanout_mail_untouched m rest (deliver s m p.2).1 p.2.cid hnd.1,
              deliver_fst_neg s m p.2 hfull]
          simp [setMail, closeMB]
        · rw [fanout_cons_snd]
          apply List.mem_append_left
          rw [deliver_snd_neg s m p.2 hfull]
          simp
        · rw [fanout_cons_snd]
          apply List.mem_append_left
          rw [deliver_snd_neg s m p.2 hfull]
          simp
      · have hne : p.2.cid ≠ q.2.cid :=
          fun he => hnd.1 (he ▸ List.mem_map_of_mem _ hm)
        have hfull' : mbCanTake ((deliver s m q.2).1.mail p.2.cid) = false := by
          rw [deliver_mail_ne s m q.2 p.2.cid hne]
          exact hfull
        obtain ⟨h1, h2, h3⟩ := ih (deliver s m q.2).1 p hm hnd.2 hfull'
        exact ⟨by rw [fanout_cons_fst]; exact h1,
               by rw [fanout_cons_snd]; exact List.mem_append_right _ h2,
               by rw [fanout_cons_snd]; exact List.mem_append_right _ h3⟩

theorem fanout_removed (m : Message) :
    ∀ (l : List (String × Client)) (s : HubState) (p : String × Client),
      p ∈ l → (cidsOf l).Nodup → uniqueKeys s →
      mbCanTake (s.mail p.2.cid) = false →
      lookupEntry (fanout m l s).1 m.roomID p.2.userID = none := by
  intro l
  induction l with
  | nil => intro s p h; simp at h
  | cons q rest ih =>
      intro s p hp hnd huk hfull
      simp only [cidsOf, List.map_cons, List.nodup_cons] at hnd
      rw [fanout_cons_fst]
      rcases List.mem_cons.mp hp with he | hm
      · subst he
        apply fanout_no_new
        rw [deliver_fst_neg s m p.2 hfull, lookupEntry_eq_innerOf]
        unfold innerOf
        show alLookup p.2.userID ((alLookup m.roomID
            (alUpdate m.roomID (alErase p.2.userID (innerOf s m.roomID)) s.clients)).getD [])
          = none
        rw [alLookup_alUpdate, if_pos rfl, Option.getD_some]
        exact alLookup_alErase_self _ _ (innerOf_nodup s m.roomID huk)
      · have hne : p.2.cid ≠ q.2.cid :=
          fun he => hnd.1 (he ▸ List.mem_map_of_mem _ hm)
        have hfull' : mbCanTake ((deliver s m q.2).1.mail p.2.cid) = false := by
          rw [deliver_mail_ne s m q.2 p.2.cid hne]
          exact hfull
        exact ih (deliver s m q.2).1 p hm hnd.2 (deliver_uniqueKeys s m q.2 huk) hfull'

theorem hubStep_uniqueKeys (s : HubState) (cmd : Cmd) (h : uniqueKeys s) :
    uniqueKeys (hubStep s cmd).1 := by
  cases cmd with
  | register c =>
      exact clientsUnique_update s.clients c.roomID _ h
        (alUpdate_nodup _ _ _ (innerOf_nodup s c.roomID h))
  | unregister c =>
      cases hr : alLookup c.roomID s.clients with
      | none => simp only [hubStep, hr]; exact h
      | some inner =>
          cases hu : alLookup c.userID inner with
          | none => simp only [hubStep, hr, hu]; exact h
          | some cl =>
              simp only [hubStep, hr, hu]
              exact clientsUnique_update s.clients c.roomID _ h
                (alErase_nodup _ _ (h _ _ hr))
  | broadcast msg =>
      by_cases hrec : msg.recipientID ≠ ""
      · simp only [hubStep, if_pos hrec]
        cases hl : lookupEntry s msg.roomID msg.recipientID with
        | none => simp only [hl]; exact h
        | some cl => simp only [hl]; exact deliver_uniqueKeys s msg cl h
      · simp only [hubStep, if_neg hrec]
        cases hr : alLookup msg.roomID s.clients with
        | none => simp only [hr]; exact h
        | some inner => simp only [hr]; exact fanout_uniqueKeys msg inner s h

theorem hubStep_roomKeys (s : HubState) (cmd : Cmd) (r : String)
    (h : r ∈ roomKeys s) : r ∈ roomKeys (hubStep s cmd).1 := by
  cases cmd with
  | register c => exact alUpdate_keys_superset _ _ _ _ h
  | unregister c =>
      cases hr : alLookup c.roomID s.clients with
      | none => simp only [hubStep, hr]; exact h
      | some inner =>
          cases hu : alLookup c.userID inner with
          | none => simp only [hubStep, hr, hu]; exact h
          | some cl =>
              simp only [hubStep, hr, hu]
              exact alUpdate_keys_superset _ _ _ _ h
  | broadcast msg =>
      by_cases hrec : msg.recipientID ≠ ""
      · simp only [hubStep, if_pos hrec]
        cases hl : lookupEntry s msg.roomID msg.recipientID with
        | none => simp only [hl]; exact h
        | some cl => simp only [hl]; exact deliver_roomKeys s msg cl r h
      · simp only [hubStep, if_neg hrec]
        cases hr : alLookup msg.roomID s.clients with
        | none => simp only [hr]; exact h
        | some inner => simp only [hr]; exact fanout_roomKeys msg r inner s h

theorem hubRunFrom_uniqueKeys :
    ∀ (cmds : List Cmd) (s : HubState), uniqueKeys s →
      uniqueKeys (hubRunFrom s cmds) := by
  intro cmds
  induction cmds with
  | nil => intro s h; exact h
  | cons c rest ih => intro s h; exact ih _ (hubStep_uniqueKeys s c h)

theorem hubRunFrom_roomKeys :
    ∀ (cmds : List Cmd) (s : HubState) (r : String), r ∈ roomKeys s →
      r ∈ roomKeys (hubRunFrom s cmds) := by
  intro cmds
  induction cmds with
  | nil => intro s r h; exact h
  | cons c rest ih => intro s r h; exact ih _ r (hubStep_roomKeys s c r h)

theorem newHub_uniqueKeys : uniqueKeys newHub := by
  intro r inner h
  simp [newHub, alLookup] at h

/-! ### Claim theorems -/

/-- C6: for every inbound frame that decodes successfully, the message
handed to the Hub's broadcast intake carries the session's authenticated
`userID` as its sender and the session's `roomID` as its room, regardless of
the `sender_id`/`room_id` the wire frame claimed; the content is passed
through unchanged. -/
theorem readPump_stamps_sender_and_room (c : Client) (w m : Message)
    (h : handleFrame c (some w) = some m) :
    m.senderID = c.userID ∧ m.roomID = c.roomID ∧ m.content = w.content := by
  simp only [handleFrame, Option.some.injEq] at h
  rw [← h]
  exact ⟨rfl, rfl, rfl⟩

theorem readPump_stamps_sender_and_room_witness :
    (Message.mk "alice" "" "r1" "hi").senderID = "alice"
    ∧ (Message.mk "alice" "" "r1" "hi").roomID = "r1"
    ∧ (Message.mk "alice" "" "r1" "hi").content = (Message.mk "mallory" "" "r9" "hi").content :=
  readPump_stamps_sender_and_room ⟨1, "alice", "r1"⟩ ⟨"mallory", "", "r9", "hi"⟩
    ⟨"alice", "", "r1", "hi"⟩ rfl

/-- C9: when the request reaches the membership check (authenticated user in
context, both UUIDs parse) and `IsRoomMember` returns false or errors, the
handler answers HTTP 403 and sends no command to the Hub: no session is
created or registered. -/
theorem serveWs_rejects_nonmember_before_hub (cid : Nat) (req : WsRequest)
    (uid : String) (h1 : req.ctxUserID = some uid) (h2 : req.userUUIDOk = true)
    (h3 : req.roomUUIDOk = true) (h4 : req.isMember ≠ some true) :
    serveWs cid req = (WsOutcome.httpError 403, []) := by
  cases hm : req.isMember with
  | none => simp [serveWs, h1, h2, h3, hm]
  | some b =>
      cases b with
      | true => exact absurd hm h4
      | false => simp [serveWs, h1, h2, h3, hm]

theorem serveWs_rejects_nonmember_before_hub_witness :
    serveWs 0 ⟨some "u", "r", true, true, some false, true⟩
      = (WsOutcome.httpError 403, []) :=
  serveWs_rejects_nonmember_before_hub 0 ⟨some "u", "r", true, true, some false, true⟩
    "u" rfl rfl rfl (by decide)

/-- C8: unregistering a session for which no registry entry exists under
(room, user) is a no-op: the state (registry and every mailbox, so in
particular the session's own mailbox is not closed a second time) is
unchanged and no effect is produced; hence unregistering the same session
twice is a no-op the second time. -/
theorem unregister_missing_noop (s : HubState) (c : Client)
    (h : lookupEntry s c.roomID c.userID = none) :
    hubStep s (Cmd.unregister c) = (s, []) := by
  unfold lookupEntry at h
  cases hr : alLookup c.roomID s.clients with
  | none => simp [hubStep, hr]
  | some inner =>
      rw [hr] at h
      simp at h
      simp [hubStep, hr, h]

theorem unregister_missing_noop_witness :
    hubStep ⟨[("r1", [("u2", ⟨2, "u2", "r1"⟩)])], fun _ => Mailbox.fresh⟩
        (Cmd.unregister ⟨1, "u1", "r1"⟩)
      = (⟨[("r1", [("u2", ⟨2, "u2", "r1"⟩)])], fun _ => Mailbox.fresh⟩, []) :=
  unregister_missing_noop _ _ (by decide)

/-- C1 fails on the code at this input: with session cid 1 registered for
("r1","u1") and its mailbox open, registering session cid 2 under the same
key replaces the registry entry but does NOT close the prior session's
mailbox (the register case only assigns into the map; it never calls
close). -/
theorem register_replacement_no_close_cex :
    lookupEntry ⟨[("r1", [("u1", ⟨1, "u1", "r1"⟩)])], fun _ => Mailbox.fresh⟩ "r1" "u1"
        = some ⟨1, "u1", "r1"⟩
    ∧ lookupEntry (hubStep ⟨[("r1", [("u1", ⟨1, "u1", "r1"⟩)])], fun _ => Mailbox.fresh⟩
          (Cmd.register ⟨2, "u1", "r1"⟩)).1 "r1" "u1" = some ⟨2, "u1", "r1"⟩
    ∧ ((hubStep ⟨[("r1", [("u1", ⟨1, "u1", "r1"⟩)])], fun _ => Mailbox.fresh⟩
          (Cmd.register ⟨2, "u1", "r1"⟩)).1.mail 1).closed = false := by
  decide

/-- C1 (amended): Register replaces the registry entry for (room, user) with
the new session, leaving every other user's entry and every other room
untouched; but the prior session's mailbox is NOT closed — no mailbox is
touched at all and no effect is produced, so the old session's outbound pump
keeps running. -/
theorem register_replaces_without_closing (s : HubState) (c : Client) :
    (hubStep s (Cmd.register c)).2 = []
    ∧ (hubStep s (Cmd.register c)).1.mail = s.mail
    ∧ ∀ r u, lookupEntry (hubStep s (Cmd.register c)).1 r u =
        if r = c.roomID then
          (if u = c.userID then some c else lookupEntry s r u)
        else lookupEntry s r u := by
  refine ⟨rfl, rfl, ?_⟩
  intro r u
  have hs' : (hubStep s (Cmd.register c)).1.clients
      = alUpdate c.roomID (alUpdate c.userID c (innerOf s c.roomID)) s.clients := rfl
  rw [lookupEntry_eq_innerOf]
  unfold innerOf
  rw [hs', alLookup_alUpdate]
  by_cases hr : r = c.roomID
  · subst hr
    rw [if_pos rfl, if_pos rfl, Option.getD_some, alLookup_alUpdate]
    by_cases hu : u = c.userID
    · rw [if_pos hu, if_pos hu]
    · rw [if_neg hu, if_neg hu, lookupEntry_eq_innerOf]
  · rw [if_neg hr, if_neg hr, lookupEntry_eq_innerOf]
    rfl

/-- C2 fails on the code at this input: session cid 2 is currently
registered for ("r1","u1"); unregistering the DIFFERENT session cid 1 (an
older session for the same key) nevertheless removes the entry — the code
checks only key presence, not that the registered session is this exact
one — and closes session 1's mailbox. -/
theorem unregister_guard_missing_cex :
    lookupEntry ⟨[("r1", [("u1", ⟨2, "u1", "r1"⟩)])], fun _ => Mailbox.fresh⟩ "r1" "u1"
        = some ⟨2, "u1", "r1"⟩
    ∧ (⟨2, "u1", "r1"⟩ : Client) ≠ ⟨1, "u1", "r1"⟩
    ∧ lookupEntry (hubStep ⟨[("r1", [("u1", ⟨2, "u1", "r1"⟩)])], fun _ => Mailbox.fresh⟩
          (Cmd.unregister ⟨1, "u1", "r1"⟩)).1 "r1" "u1" = none := by
  decide

/-- C2 (amended): Unregister removes the registry entry for
(session.room, session.user) whenever ANY session is registered under that
key — without checking that it is this exact session, so a newer session's
entry is removed too — and closes the unregistering session's own
mailbox. -/
theorem unregister_removes_any_entry (s : HubState) (c : Client) (cl' : Client)
    (h : lookupEntry s c.roomID c.userID = some cl')
    (hk : uniqueKeysB s = true) :
    lookupEntry (hubStep s (Cmd.unregister c)).1 c.roomID c.userID = none
    ∧ ((hubStep s (Cmd.unregister c)).1.mail c.cid).closed = true
    ∧ (hubStep s (Cmd.unregister c)).2
        = [Event.removeEntry c.roomID c.userID, Event.closeMbox c.cid] := by
  have huk := uniqueKeysB_sound s hk
  unfold lookupEntry at h
  cases hr : alLookup c.roomID s.clients with
  | none => rw [hr] at h; simp at h
  | some inner =>
      rw [hr] at h
      simp at h
      have hstep1 : (hubStep s (Cmd.unregister c)).1
          = ⟨alUpdate c.roomID (alErase c.userID inner) s.clients,
             setMail c.cid (closeMB (s.mail c.cid)) s.mail⟩ := by
        simp [hubStep, hr, h]
      have hstep2 : (hubStep s (Cmd.unregister c)).2
          = [Event.removeEntry c.roomID c.userID, Event.closeMbox c.cid] := by
        simp [hubStep, hr, h]
      refine ⟨?_, ?_, hstep2⟩
      · rw [hstep1, lookupEntry_eq_innerOf]
        unfold innerOf
        show alLookup c.userID ((alLookup c.roomID
            (alUpdate c.roomID (alErase c.userID inner) s.clients)).getD []) = none
        rw [alLookup_alUpdate, if_pos rfl, Option.getD_some]
        exact alLookup_alErase_self _ _ (huk _ _ hr)
      · rw [hstep1]
        simp [setMail, closeMB]

theorem unregister_removes_any_entry_witness :
    lookupEntry (hubStep ⟨[("r1", [("u1", ⟨2, "u1", "r1"⟩)])], fun _ => Mailbox.fresh⟩
        (Cmd.unregister ⟨1, "u1", "r1"⟩)).1 "r1" "u1" = none
    ∧ ((hubStep ⟨[("r1", [("u1", ⟨2, "u1", "r1"⟩)])], fun _ => Mailbox.fresh⟩
        (Cmd.unregister ⟨1, "u1", "r1"⟩)).1.mail 1).closed = true
    ∧ (hubStep ⟨[("r1", [("u1", ⟨2, "u1", "r1"⟩)])], fun _ => Mailbox.fresh⟩
        (Cmd.unregister ⟨1, "u1", "r1"⟩)).2
        = [Event.removeEntry "r1" "u1", Event.closeMbox 1] :=
  unregister_removes_any_entry
    ⟨[("r1", [("u1", ⟨2, "u1", "r1"⟩)])], fun _ => Mailbox.fresh⟩
    ⟨1, "u1", "r1"⟩ ⟨2, "u1", "r1"⟩ (by decide) (by decide)

/-- C7: starting from the fresh Hub, after any sequence of register,
unregister and broadcast commands, every room's inner registry map has
pairwise-distinct user keys — at most one session per user per room. -/
theorem registry_user_keys_unique (cmds : List Cmd) (r : String)
    (inner : List (String × Client))
    (h : alLookup r (hubRun cmds).clients = some inner) :
    (inner.map Prod.fst).Nodup :=
  hubRunFrom_uniqueKeys cmds newHub newHub_uniqueKeys r inner h

theorem registry_user_keys_unique_witness :
    (([("u1", (⟨3, "u1", "r1"⟩ : Client)), ("u2", ⟨2, "u2", "r1"⟩)]).map Prod.fst).Nodup :=
  registry_user_keys_unique
    [Cmd.register ⟨1, "u1", "r1"⟩, Cmd.register ⟨2, "u2", "r1"⟩,
     Cmd.register ⟨3, "u1", "r1"⟩]
    "r1" [("u1", ⟨3, "u1", "r1"⟩), ("u2", ⟨2, "u2", "r1"⟩)] (by decide)

/-- C10: the set of room keys in the registry is monotonically
non-decreasing over any sequence of commands: register creates a room's
inner map on demand, while unregister and backpressure eviction delete only
user entries inside a room's inner map and never remove the inner map
itself, even once it is empty. -/
theorem room_keys_nondecreasing (s : HubState) (cmds : List Cmd) (r : String)
    (h : r ∈ roomKeys s) : r ∈ roomKeys (hubRunFrom s cmds) :=
  hubRunFrom_roomKeys cmds s r h

theorem room_keys_nondecreasing_witness :
    "r1" ∈ roomKeys (hubRunFrom
      ⟨[("r1", [("u1", ⟨1, "u1", "r1"⟩)])], fun _ => Mailbox.fresh⟩
      [Cmd.unregister ⟨1, "u1", "r1"⟩]) :=
  room_keys_nondecreasing
    ⟨[("r1", [("u1", ⟨1, "u1", "r1"⟩)])], fun _ => Mailbox.fresh⟩
    [Cmd.unregister ⟨1, "u1", "r1"⟩] "r1" (by decide)

/-- C4: a broadcast with no recipient, sent while the sessions registered in
the message's room are pairwise-distinct client objects none of whose
mailboxes is at capacity, produces exactly one enqueue per registered
session of that room, in registry order, and no other event — in particular
no enqueue to any session of another room, and zero enqueues when the room
has no registry entry — and leaves the registry unchanged. -/
theorem broadcast_fanout_complete (s : HubState) (m : Message)
    (hrec : m.recipientID = "")
    (hcan : ∀ p ∈ innerOf s m.roomID, mbCanTake (s.mail p.2.cid) = true)
    (hnd : (cidsOf (innerOf s m.roomID)).Nodup) :
    (hubStep s (Cmd.broadcast m)).2
      = (innerOf s m.roomID).map (fun p => Event.enqueue p.2.cid m)
    ∧ (hubStep s (Cmd.broadcast m)).1.clients = s.clients := by
  cases hr : alLookup m.roomID s.clients with
  | none =>
      have h1 : hubStep s (Cmd.broadcast m) = (s, []) := by
        simp [hubStep, hrec, hr]
      have hinner : innerOf s m.roomID = [] := by unfold innerOf; rw [hr]; rfl
      rw [h1, hinner]
      exact ⟨rfl, rfl⟩
  | some inner =>
      have h1 : hubStep s (Cmd.broadcast m) = fanout m inner s := by
        simp [hubStep, hrec, hr]
      have hinner : innerOf s m.roomID = inner := by unfold innerOf; rw [hr]; rfl
      rw [hinner] at hcan hnd
      rw [h1, hinner]
      exact fanout_all_ok m inner s hcan hnd

theorem broadcast_fanout_complete_witness :
    (hubStep ⟨[("r1", [("u1", ⟨1, "u1", "r1"⟩), ("u2", ⟨2, "u2", "r1"⟩)]),
               ("r2", [("u3", ⟨3, "u3", "r2"⟩)])], fun _ => Mailbox.fresh⟩
        (Cmd.broadcast ⟨"u1", "", "r1", "hi"⟩)).2
      = (innerOf ⟨[("r1", [("u1", ⟨1, "u1", "r1"⟩), ("u2", ⟨2, "u2", "r1"⟩)]),
                   ("r2", [("u3", ⟨3, "u3", "r2"⟩)])], fun _ => Mailbox.fresh⟩
          (Message.mk "u1" "" "r1" "hi").roomID).map
            (fun p => Event.enqueue p.2.cid ⟨"u1", "", "r1", "hi"⟩)
    ∧ (hubStep ⟨[("r1", [("u1", ⟨1, "u1", "r1"⟩), ("u2", ⟨2, "u2", "r1"⟩)]),
                 ("r2", [("u3", ⟨3, "u3", "r2"⟩)])], fun _ => Mailbox.fresh⟩
        (Cmd.broadcast ⟨"u1", "", "r1", "hi"⟩)).1.clients
      = [("r1", [("u1", ⟨1, "u1", "r1"⟩), ("u2", ⟨2, "u2", "r1"⟩)]),
         ("r2", [("u3", ⟨3, "u3", "r2"⟩)])] :=
  broadcast_fanout_complete
    ⟨[("r1", [("u1", ⟨1, "u1", "r1"⟩), ("u2", ⟨2, "u2", "r1"⟩)]),
      ("r2", [("u3", ⟨3, "u3", "r2"⟩)])], fun _ => Mailbox.fresh⟩
    ⟨"u1", "", "r1", "hi"⟩ rfl (by decide) (by decide)

/-- C5: routing a message whose recipient is set.  If the recipient is
registered in the message's room, the routing can only ever enqueue onto
that one session's mailbox: when that mailbox has room, the effects are
exactly one enqueue to it, the registry is unchanged and no other mailbox
changes; when it is full, the session is evicted instead and nothing is
enqueued anywhere.  If the recipient is not registered in that room, zero
enqueues occur, the message is dropped, the "recipient not found" outcome
is recorded, and the state — registry included — is unchanged. -/
theorem directed_route_delivery (s : HubState) (m : Message)
    (hne : m.recipientID ≠ "") :
    match lookupEntry s m.roomID m.recipientID with
    | none => hubStep s (Cmd.broadcast m) = (s, [Event.notFound m.roomID m.recipientID])
    | some cl =>
        if mbCanTake (s.mail cl.cid) = true then
          (hubStep s (Cmd.broadcast m)).2 = [Event.enqueue cl.cid m]
          ∧ (hubStep s (Cmd.broadcast m)).1.clients = s.clients
          ∧ ∀ n, (hubStep s (Cmd.broadcast m)).1.mail n
              = if n = cl.cid then pushMB m (s.mail cl.cid) else s.mail n
        else
          (hubStep s (Cmd.broadcast m)).2
            = [Event.closeMbox cl.cid, Event.removeEntry m.roomID cl.userID] := by
  have hstep : hubStep s (Cmd.broadcast m)
      = (match lookupEntry s m.roomID m.recipientID with
         | some cl => deliver s m cl
         | none => (s, [Event.notFound m.roomID m.recipientID])) := by
    simp [hubStep, hne]
  cases hl : lookupEntry s m.roomID m.recipientID with
  | none =>
      rw [hl] at hstep
      exact hstep
  | some cl =>
      rw [hl] at hstep
      show if mbCanTake (s.mail cl.cid) = true then
          (hubStep s (Cmd.broadcast m)).2 = [Event.enqueue cl.cid m]
          ∧ (hubStep s (Cmd.broadcast m)).1.clients = s.clients
          ∧ ∀ n, (hubStep s (Cmd.broadcast m)).1.mail n
              = if n = cl.cid then pushMB m (s.mail cl.cid) else s.mail n
        else
          (hubStep s (Cmd.broadcast m)).2
            = [Event.closeMbox cl.cid, Event.removeEntry m.roomID cl.userID]
      by_cases hc : mbCanTake (s.mail cl.cid) = true
      · rw [if_pos hc]
        refine ⟨?_, ?_, ?_⟩
        · rw [hstep, deliver_snd_pos s m cl hc]
        · rw [hstep, deliver_fst_pos s m cl hc]
        · intro n
          rw [hstep, deliver_fst_pos s m cl hc]
          rfl
      · have hc' : mbCanTake (s.mail cl.cid) = false := by
          revert hc
          cases mbCanTake (s.mail cl.cid) <;> simp
        rw [if_neg hc]
        rw [hstep, deliver_snd_neg s m cl hc']

theorem directed_route_delivery_witness :
    (hubStep ⟨[("r1", [("u2", ⟨2, "u2", "r1"⟩)])], fun _ => Mailbox.fresh⟩
        (Cmd.broadcast ⟨"u1", "u2", "r1", "hi"⟩)).2
      = [Event.enqueue 2 ⟨"u1", "u2", "r1", "hi"⟩]
    ∧ (hubStep ⟨[("r1", [("u2", ⟨2, "u2", "r1"⟩)])], fun _ => Mailbox.fresh⟩
        (Cmd.broadcast ⟨"u1", "u2", "r1", "hi"⟩)).1.clients
      = [("r1", [("u2", ⟨2, "u2", "r1"⟩)])]
    ∧ ∀ n, (hubStep ⟨[("r1", [("u2", ⟨2, "u2", "r1"⟩)])], fun _ => Mailbox.fresh⟩
        (Cmd.broadcast ⟨"u1", "u2", "r1", "hi"⟩)).1.mail n
        = if n = 2 then pushMB ⟨"u1", "u2", "r1", "hi"⟩ Mailbox.fresh else Mailbox.fresh :=
  directed_route_delivery
    ⟨[("r1", [("u2", ⟨2, "u2", "r1"⟩)])], fun _ => Mailbox.fresh⟩
    ⟨"u1", "u2", "r1", "hi"⟩ (by decide)

/-- C3: during a broadcast fan-out (no recipient), a registered session
whose mailbox is full at enqueue time is evicted immediately: its mailbox
ends closed, the close of its channel and the registry delete of its user
key are among the routing's effects, its entry is absent from the room's
registry afterwards, and every session registered in the room was still
attempted — each one is either enqueued to or itself evicted, so the
eviction neither skips nor aborts the rest of the broadcast. -/
theorem broadcast_backpressure_eviction (s : HubState) (m : Message)
    (u0 : String) (cl0 : Client)
    (hrec : m.recipientID = "")
    (hmem : (u0, cl0) ∈ innerOf s m.roomID)
    (hnd : (cidsOf (innerOf s m.roomID)).Nodup)
    (hk : uniqueKeysB s = true)
    (hfull : mbCanTake (s.mail cl0.cid) = false) :
    ((hubStep s (Cmd.broadcast m)).1.mail cl0.cid).closed = true
    ∧ Event.closeMbox cl0.cid ∈ (hubStep s (Cmd.broadcast m)).2
    ∧ Event.removeEntry m.roomID cl0.userID ∈ (hubStep s (Cmd.broadcast m)).2
    ∧ lookupEntry (hubStep s (Cmd.broadcast m)).1 m.roomID cl0.userID = none
    ∧ ∀ p ∈ innerOf s m.roomID,
        Event.enqueue p.2.cid m ∈ (hubStep s (Cmd.broadcast m)).2
        ∨ Event.closeMbox p.2.cid ∈ (hubStep s (Cmd.broadcast m)).2 := by
  cases hr : alLookup m.roomID s.clients with
  | none =>
      unfold innerOf at hmem
      rw [hr] at hmem
      simp at hmem
  | some inner =>
      have hinner : innerOf s m.roomID = inner := by unfold innerOf; rw [hr]; rfl
      have hstep : hubStep s (Cmd.broadcast m) = fanout m inner s := by
        simp [hubStep, hrec, hr]
      rw [hinner] at hmem hnd
      rw [hstep, hinner]
      obtain ⟨h1, h2, h3⟩ := fanout_full_evicted m inner s (u0, cl0) hmem hnd hfull
      refine ⟨h1, h2, h3, ?_, ?_⟩
      · exact fanout_removed m inner s (u0, cl0) hmem hnd (uniqueKeysB_sound s hk) hfull
      · intro p hp
        rcases fanout_attempt m inner s p hp with h | h
        · exact Or.inl h
        · exact Or.inr h.1

set_option maxRecDepth 4096 in
theorem broadcast_backpressure_eviction_witness :
    ((hubStep ⟨[("r1", [("u1", ⟨1, "u1", "r1"⟩), ("u2", ⟨2, "u2", "r1"⟩)])],
        fun n => if n = 1 then ⟨List.replicate 256 ⟨"x", "", "r1", "y"⟩, false⟩
                 else Mailbox.fresh⟩
        (Cmd.broadcast ⟨"u2", "", "r1", "hi"⟩)).1.mail 1).closed = true
    ∧ Event.closeMbox 1 ∈ (hubStep ⟨[("r1", [("u1", ⟨1, "u1", "r1"⟩), ("u2", ⟨2, "u2", "r1"⟩)])],
        fun n => if n = 1 then ⟨List.replicate 256 ⟨"x", "", "r1", "y"⟩, false⟩
                 else Mailbox.fresh⟩
        (Cmd.broadcast ⟨"u2", "", "r1", "hi"⟩)).2
    ∧ Event.removeEntry "r1" "u1" ∈ (hubStep ⟨[("r1", [("u1", ⟨1, "u1", "r1"⟩), ("u2", ⟨2, "u2", "r1"⟩)])],
        fun n => if n = 1 then ⟨List.replicate 256 ⟨"x", "", "r1", "y"⟩, false⟩
                 else Mailbox.fresh⟩
        (Cmd.broadcast ⟨"u2", "", "r1", "hi"⟩)).2
    ∧ lookupEntry (hubStep ⟨[("r1", [("u1", ⟨1, "u1", "r1"⟩), ("u2", ⟨2, "u2", "r1"⟩)])],
        fun n => if n = 1 then ⟨List.replicate 256 ⟨"x", "", "r1", "y"⟩, false⟩
                 else Mailbox.fresh⟩
        (Cmd.broadcast ⟨"u2", "", "r1", "hi"⟩)).1 "r1" "u1" = none
    ∧ ∀ p ∈ innerOf ⟨[("r1", [("u1", ⟨1, "u1", "r1"⟩), ("u2", ⟨2, "u2", "r1"⟩)])],
        fun n => if n = 1 then ⟨List.replicate 256 ⟨"x", "", "r1", "y"⟩, false⟩
                 else Mailbox.fresh⟩ (Message.mk "u2" "" "r1" "hi").roomID,
        Event.enqueue p.2.cid ⟨"u2", "", "r1", "hi"⟩
            ∈ (hubStep ⟨[("r1", [("u1", ⟨1, "u1", "r1"⟩), ("u2", ⟨2, "u2", "r1"⟩)])],
                fun n => if n = 1 then ⟨List.replicate 256 ⟨"x", "", "r1", "y"⟩, false⟩
                         else Mailbox.fresh⟩
                (Cmd.broadcast ⟨"u2", "", "r1", "hi"⟩)).2
        ∨ Event.closeMbox p.2.cid
            ∈ (hubStep ⟨[("r1", [("u1", ⟨1, "u1", "r1"⟩), ("u2", ⟨2, "u2", "r1"⟩)])],
                fun n => if n = 1 then ⟨List.replicate 256 ⟨"x", "", "r1", "y"⟩, false⟩
                         else Mailbox.fresh⟩
                (Cmd.broadcast ⟨"u2", "", "r1", "hi"⟩)).2 :=
  broadcast_backpressure_eviction
    ⟨[("r1", [("u1", ⟨1, "u1", "r1"⟩), ("u2", ⟨2, "u2", "r1"⟩)])],
      fun n => if n = 1 then ⟨List.replicate 256 ⟨"x", "", "r1", "y"⟩, false⟩
               else Mailbox.fresh⟩
    ⟨"u2", "", "r1", "hi"⟩ "u1" ⟨1, "u1", "r1"⟩
    rfl (by decide) (by decide) (by decide) (by decide)
